import Mathlib

/-!
# Verification of the census ACS fetch-and-merge pipeline

A shallow embedding of `census_feature_vecs.py`: Python strings become
`List Char`, pandas DataFrames become lists of association-list rows,
the cache directory becomes a list of named files whose content is
`Option`-valued (`none` models an unreadable/corrupt feather file), and
every Python function that can raise returns `Except String`.
-/

/-- Python strings, embedded as lists of characters. -/
abbrev PyStr := List Char

deriving instance DecidableEq for Except

set_option synthInstance.maxSize 1000
set_option maxRecDepth 4000

/-! ## Python string primitives -/

/-- Python `s.split(".")`: split on every occurrence of `"."`. -/
def splitDot : PyStr → List PyStr
  | [] => [[]]
  | c :: rest =>
    if c = '.' then [] :: splitDot rest
    else
      match splitDot rest with
      | [] => [[c]]
      | p :: ps => (c :: p) :: ps

/-- Python `s.split("--")`: split on non-overlapping occurrences of `"--"`,
scanning left to right. -/
def splitDD : PyStr → List PyStr
  | [] => [[]]
  | [c] => [[c]]
  | c :: d :: rest =>
    if c = '-' ∧ d = '-' then [] :: splitDD rest
    else
      match splitDD (d :: rest) with
      | [] => [[c]]
      | p :: ps => (c :: p) :: ps

/-- Whether `'.'` occurs in the string. -/
def hasDot : PyStr → Bool
  | [] => false
  | c :: rest => c = '.' || hasDot rest

/-- Whether `"--"` occurs in the string. -/
def hasDD : PyStr → Bool
  | [] => false
  | [_] => false
  | c :: d :: rest => (c = '-' && d = '-') || hasDD (d :: rest)

/-- Whether the string ends with `'-'`. -/
def endsDash : PyStr → Bool
  | [] => false
  | [c] => c = '-'
  | _ :: d :: rest => endsDash (d :: rest)

/-- Strip leading and trailing whitespace (Python `int` does this
before parsing). -/
def stripWS (s : PyStr) : PyStr :=
  ((s.dropWhile Char.isWhitespace).reverse.dropWhile Char.isWhitespace).reverse

/-- The decimal digit character for `d < 10` (any larger argument is
mapped to `'9'`; callers only pass digits). -/
def digitChar : Nat → Char
  | 0 => '0' | 1 => '1' | 2 => '2' | 3 => '3' | 4 => '4'
  | 5 => '5' | 6 => '6' | 7 => '7' | 8 => '8' | _ => '9'

/-- Numeric value of a digit character. -/
def charVal (c : Char) : Nat := c.toNat - 48

/-- Value of a most-significant-first digit string. -/
def digitsVal (ds : PyStr) : Nat :=
  ds.foldl (fun a c => a * 10 + charVal c) 0

/-- Parse a nonempty all-digit string. -/
def digitsToNat (ds : PyStr) : Option Nat :=
  if ds = [] then none
  else if ds.all Char.isDigit then some (digitsVal ds) else none

/-- Python `int(s)` on base-10 integer literals: strips whitespace, then
an optional sign followed by decimal digits; anything else raises
(`none` here). -/
def pyInt (s : PyStr) : Option Int :=
  let t := stripWS s
  if t.headD ' ' = '-' then (digitsToNat t.tail).map (fun n => -(n : Int))
  else if t.headD ' ' = '+' then (digitsToNat t.tail).map (fun n => (n : Int))
  else (digitsToNat t).map (fun n => (n : Int))

/-- Least-significant-first decimal digits of `n`, with explicit fuel
(`fuel ≥ n` suffices). -/
def natDigitsAux : Nat → Nat → List Nat
  | 0, _ => []
  | _, 0 => []
  | fuel + 1, n + 1 => ((n + 1) % 10) :: natDigitsAux fuel ((n + 1) / 10)

/-- Python `str(n)` for a natural number. -/
def natToStr (n : Nat) : PyStr :=
  if n = 0 then ['0'] else ((natDigitsAux n n).map digitChar).reverse

/-- Python `str(i)` / f-string formatting of an integer. -/
def intToStr : Int → PyStr
  | Int.ofNat n => natToStr n
  | Int.negSucc n => '-' :: natToStr (n + 1)

/-! ## The cache directory model -/

/-- One row of a cached per-variable record set: the columns
`state`, `<GEOGRAPHY>`, `year`, `descr`, `value` built by
`get_acs_variable`. -/
structure CacheRow where
  state : PyStr
  subGeo : PyStr
  year : Int
  descr : PyStr
  value : PyStr
deriving DecidableEq

/-- One file of the cache directory: its name, and its content
(`none` models a file that `feather.read_feather` fails on). -/
structure CacheFile where
  filename : PyStr
  content : Option (List CacheRow)
deriving DecidableEq

/-- `feather.read_feather` on one cache file. -/
def readFeather (f : CacheFile) : Except String (List CacheRow) :=
  match f.content with
  | some rows => .ok rows
  | none => .error "ArrowInvalid"

/-- `feather.write_feather(d, fp)`: replaces the file of that name if
present, otherwise creates it. -/
def writeFeather (cache : List CacheFile) (fn : PyStr) (rows : List CacheRow) :
    List CacheFile :=
  if cache.any (fun f => decide (f.filename = fn)) then
    cache.map (fun f => if f.filename = fn then ⟨fn, some rows⟩ else f)
  else cache ++ [⟨fn, some rows⟩]

/-- Content of the named file, if it exists (first match, as on a real
filesystem names are unique). -/
def lookupFile : List CacheFile → PyStr → Option (Option (List CacheRow))
  | [], _ => none
  | f :: rest, fn => if f.filename = fn then some f.content else lookupFile rest fn

/-- The cache filename `f"{var}--{YEAR}.feather"` used by the fetch loop. -/
def cacheName (var : PyStr) (year : Int) : PyStr :=
  var ++ "--".data ++ intToStr year ++ ".feather".data

/-! ## Completion Tracker (`get_completed_vars`) -/

/-- One iteration of the `get_completed_vars` loop:
`filename.split(".")[0]`, then `var, yr = filename.split("--")`
(raising `ValueError` unless it yields exactly two parts), then
`int(yr)` (raising on a non-integer), then keep `var` iff the year
matches. -/
def completedStep (year : Int) (acc : Finset PyStr) (filename : PyStr) :
    Except String (Finset PyStr) :=
  match splitDD ((splitDot filename).headD []) with
  | [var, yr] =>
    match pyInt yr with
    | some y => if y ≠ year then .ok acc else .ok (insert var acc)
    | none => .error "ValueError"
  | _ => .error "ValueError"

/-- The `for filename in os.listdir(dir)` loop of `get_completed_vars`. -/
def getCompletedAux (year : Int) (acc : Finset PyStr) :
    List PyStr → Except String (Finset PyStr)
  | [] => .ok acc
  | fn :: rest =>
    match completedStep year acc fn with
    | .ok acc' => getCompletedAux year acc' rest
    | .error e => .error e

/-- `get_completed_vars(dir, year)`, over the directory listing. -/
def get_completed_vars (listing : List PyStr) (year : Int) :
    Except String (Finset PyStr) :=
  getCompletedAux year ∅ listing

/-- Parse a cache filename the way `get_completed_vars` does; `none`
when the Python code would raise. -/
def parseCacheFilename (fn : PyStr) : Option (PyStr × Int) :=
  match splitDD ((splitDot fn).headD []) with
  | [var, yr] => (pyInt yr).map (fun y => (var, y))
  | _ => none

/-- A filename the scan accepts without raising. -/
def wellFormedName (fn : PyStr) : Bool :=
  (parseCacheFilename fn).isSome

/-- A variable identifier that survives the naming convention: no
extension separator, no `"--"` delimiter, and not ending in `'-'`
(a trailing dash would shift the first `"--"` occurrence). -/
def cleanVarId (v : PyStr) : Bool :=
  !hasDot v && !hasDD v && !endsDash v

/-! ## Merge Engine -/

/-- A DataFrame row: an association list from column name to cell,
where a `none` cell is pandas null/NaN. -/
abbrev Row := List (PyStr × Option PyStr)

/-- A DataFrame: a list of rows. -/
abbrev DF := List Row

/-- First cell of the named column, `none` when the column is absent. -/
def rowLookup : Row → PyStr → Option (Option PyStr)
  | [], _ => none
  | (k, v) :: rest, key => if k = key then some v else rowLookup rest key

/-- `variable_name = filename.split("--")[0]` as both merges derive it. -/
def varNameOf (fn : PyStr) : PyStr :=
  (splitDD fn).headD []

/-- The long-merge transform of one cached row: add
`unique_id = state + sub_geo`, drop `state`/`<GEOGRAPHY>`/`year`/`descr`,
tag with the variable name. Remaining columns: `value`, `unique_id`,
`variable`. -/
def longRowOf (var : PyStr) (r : CacheRow) : Row :=
  [("value".data, some r.value),
   ("unique_id".data, some (r.state ++ r.subGeo)),
   ("variable".data, some var)]

/-- The `for` loop of `concatenate_variables_long`: per readable file,
its transformed table and its variable name; the first read failure
propagates (there is no per-file handler). -/
def concatLongAux : List CacheFile → Except String (List DF × List PyStr)
  | [] => .ok ([], [])
  | f :: rest =>
    let var := varNameOf f.filename
    match readFeather f with
    | .error e => .error e
    | .ok rows =>
      match concatLongAux rest with
      | .error e => .error e
      | .ok (dfs, vars) => .ok ((rows.map (longRowOf var)) :: dfs, var :: vars)

/-- `concatenate_variables_long(dir)`: stack the per-file tables with
`pd.concat`, which raises on an empty list of objects. -/
def concatenate_variables_long (dir : List CacheFile) :
    Except String (DF × List PyStr) :=
  match concatLongAux dir with
  | .error e => .error e
  | .ok (dfs, vars) =>
    if dfs.isEmpty then .error "ValueError: no objects to concatenate"
    else .ok (dfs.flatten, vars)

/-- `total.merge(d, how="left", on="unique_id")` where `d` has columns
`(<var>, unique_id)` reduced to `(unique_id, value)` pairs: every base
row is kept; rows with no match get a null new column, rows with
several matches are duplicated. -/
def leftMergeVar (total : DF) (var : PyStr) (d : List (PyStr × PyStr)) : DF :=
  total.flatMap (fun row =>
    match rowLookup row "unique_id".data with
    | some (some u) =>
      match d.filter (fun p => decide (p.1 = u)) with
      | [] => [row ++ [(var, none)]]
      | m :: ms => (m :: ms).map (fun p => row ++ [(var, some p.2)])
    | _ => [row ++ [(var, none)]])

/-- The `for` loop of `concatenate_variables_wide`: the first file seeds
`total` with columns `(unique_id, <var>)`, each later file is
left-joined on `unique_id`; a read failure propagates. -/
def concatWideAux (total : Option DF) (vars : List PyStr) :
    List CacheFile → Except String (Option DF × List PyStr)
  | [] => .ok (total, vars)
  | f :: rest =>
    let var := varNameOf f.filename
    match readFeather f with
    | .error e => .error e
    | .ok rows =>
      let d := rows.map (fun r => (r.state ++ r.subGeo, r.value))
      match total with
      | none =>
        concatWideAux
          (some (d.map (fun p => [("unique_id".data, some p.1), (var, some p.2)])))
          (vars ++ [var]) rest
      | some t =>
        concatWideAux (some (leftMergeVar t var d)) (vars ++ [var]) rest

/-- `concatenate_variables_wide(dir)`; on an empty directory `total`
stays `None`. -/
def concatenate_variables_wide (dir : List CacheFile) :
    Except String (Option DF × List PyStr) :=
  concatWideAux none [] dir

/-! ## Fetch phase (the `if SCRAPE_VARS` loop of `__main__`) -/

/-- Observable state of the fetch loop: the cache directory, the
variables for which a remote query was issued, and the per-variable
failures printed by the `except` handler. -/
structure FetchState where
  cache : List CacheFile
  queried : List PyStr
  failures : List (PyStr × String)
deriving DecidableEq

/-- One iteration of the fetch loop body: skip variables already
completed; otherwise query the remote source (`fetchFn`, the model of
`get_acs_variable`) and write the feather file (`writeOk` models
whether `feather.write_feather` succeeds); any exception is caught,
reported for that variable only, and the loop continues. -/
def fetchLoopStep (fetchFn : PyStr → Except String (List CacheRow))
    (writeOk : PyStr → Bool) (year : Int) (completed : Finset PyStr)
    (st : FetchState) (var : PyStr) : FetchState :=
  if var ∈ completed then st
  else
    match fetchFn var with
    | .error e =>
      { st with queried := st.queried ++ [var], failures := st.failures ++ [(var, e)] }
    | .ok rows =>
      let fn := cacheName var year
      if writeOk fn then
        { st with queried := st.queried ++ [var],
                  cache := writeFeather st.cache fn rows }
      else
        { st with queried := st.queried ++ [var],
                  failures := st.failures ++ [(var, "CacheWriteError")] }

/-- The whole `for i, var in enumerate(var_names)` fetch loop. -/
def fetch_loop (fetchFn : PyStr → Except String (List CacheRow))
    (writeOk : PyStr → Bool) (year : Int) (completed : Finset PyStr) :
    List PyStr → FetchState → FetchState
  | [], st => st
  | v :: vs, st =>
    fetch_loop fetchFn writeOk year completed vs
      (fetchLoopStep fetchFn writeOk year completed st v)

/-- The set of identifiers a fully well-formed listing contributes for a
target year. -/
def expectedCompleted : List PyStr → Int → Finset PyStr
  | [], _ => ∅
  | fn :: rest, year =>
    match parseCacheFilename fn with
    | some (v, y) =>
      if y = year then insert v (expectedCompleted rest year)
      else expectedCompleted rest year
    | none => expectedCompleted rest year

/-- Value of a least-significant-first digit list. -/
def ofDigitsLSB : List Nat → Nat
  | [] => 0
  | d :: ds => d + 10 * ofDigitsLSB ds

/-! ## Concrete fixtures used by witnesses and counterexamples -/

/-- First example cache file of the wide-merge scenario: variable `V1`
covering `unique_id`s `101` and `102`. -/
def exV1File : CacheFile :=
  ⟨"V1--2020.feather".data, some
    [⟨"1".data, "01".data, 2020, "d".data, "a".data⟩,
     ⟨"1".data, "02".data, 2020, "d".data, "b".data⟩]⟩

/-- Second example cache file: variable `V2` covering `unique_id`s
`102` and `103`. -/
def exV2File : CacheFile :=
  ⟨"V2--2020.feather".data, some
    [⟨"1".data, "02".data, 2020, "d".data, "c".data⟩,
     ⟨"1".data, "03".data, 2020, "d".data, "e".data⟩]⟩

/-- A cache file `feather.read_feather` fails on. -/
def exCorruptFile : CacheFile := ⟨"V2--2020.feather".data, none⟩

/-- The wide merge of `[exV1File, exV2File]`: rows exactly `{101, 102}`,
`V2` null at `101`, `103` absent. -/
def exWideOut : DF :=
  [[("unique_id".data, some "101".data), ("V1".data, some "a".data),
    ("V2".data, none)],
   [("unique_id".data, some "102".data), ("V1".data, some "b".data),
    ("V2".data, some "c".data)]]

/-- A five-geography cache file for the long-merge row-count scenario. -/
def exV1File5 : CacheFile :=
  ⟨"V1--2020.feather".data, some
    [⟨"1".data, "01".data, 2020, "d".data, "a".data⟩,
     ⟨"1".data, "02".data, 2020, "d".data, "b".data⟩,
     ⟨"1".data, "03".data, 2020, "d".data, "c".data⟩,
     ⟨"1".data, "04".data, 2020, "d".data, "e".data⟩,
     ⟨"1".data, "05".data, 2020, "d".data, "f".data⟩]⟩

/-- A three-geography cache file for the long-merge row-count scenario. -/
def exV2File3 : CacheFile :=
  ⟨"V2--2020.feather".data, some
    [⟨"2".data, "01".data, 2020, "d".data, "g".data⟩,
     ⟨"2".data, "02".data, 2020, "d".data, "h".data⟩,
     ⟨"2".data, "03".data, 2020, "d".data, "i".data⟩]⟩

/-! ## Lemmas: Completion Tracker -/

/-- `completedStep` in terms of `parseCacheFilename`. -/
theorem completedStep_eq (year : Int) (acc : Finset PyStr) (fn : PyStr) :
    completedStep year acc fn =
      match parseCacheFilename fn with
      | some (v, y) => .ok (if y = year then insert v acc else acc)
      | none => .error "ValueError" := by
  unfold completedStep parseCacheFilename
  cases h : splitDD ((splitDot fn).headD []) with
  | nil => rfl
  | cons a l =>
    cases l with
    | nil => rfl
    | cons b l2 =>
      cases l2 with
      | nil =>
        cases hy : pyInt b with
        | none => simp [hy]
        | some y =>
          by_cases hyy : y = year <;> simp [hy, hyy]
      | cons c l3 => rfl

/-- Unfolding the scan loop one accepted file at a time. -/
theorem getCompletedAux_cons_ok (year : Int) (acc : Finset PyStr)
    (g : PyStr) (rest : List PyStr) (acc' : Finset PyStr)
    (h : completedStep year acc g = .ok acc') :
    getCompletedAux year acc (g :: rest) = getCompletedAux year acc' rest := by
  conv_lhs => unfold getCompletedAux
  rw [h]


/-- A malformed filename anywhere in the listing makes the whole scan
raise. -/
theorem getCompletedAux_error_of_malformed (year : Int) (fn : PyStr)
    (listing : List PyStr) (hmem : fn ∈ listing)
    (hbad : wellFormedName fn = false) :
    ∀ acc, ∃ e, getCompletedAux year acc listing = .error e := by
  induction listing with
  | nil => cases hmem
  | cons g rest ih =>
    intro acc
    unfold getCompletedAux
    cases hs : completedStep year acc g with
    | error e => exact ⟨e, rfl⟩
    | ok acc' =>
      rcases List.mem_cons.mp hmem with hfg | hrest
      · subst hfg
        rw [completedStep_eq] at hs
        unfold wellFormedName at hbad
        cases hp : parseCacheFilename fn with
        | none => rw [hp] at hs; cases hs
        | some p => rw [hp] at hbad; cases hbad
      · exact ih hrest acc'


theorem expectedCompleted_cons (fn : PyStr) (rest : List PyStr) (year : Int) :
    expectedCompleted (fn :: rest) year
      = match parseCacheFilename fn with
        | some (v, y) =>
          if y = year then insert v (expectedCompleted rest year)
          else expectedCompleted rest year
        | none => expectedCompleted rest year := rfl

/-- On a fully well-formed listing the scan succeeds and returns the
accumulator extended with exactly the identifiers parsed at the target
year. -/
theorem getCompletedAux_ok_of_wf (year : Int) (listing : List PyStr)
    (hwf : ∀ fn ∈ listing, wellFormedName fn = true) :
    ∀ acc, getCompletedAux year acc listing
      = .ok (acc ∪ expectedCompleted listing year) := by
  induction listing with
  | nil =>
    intro acc
    simp [getCompletedAux, expectedCompleted]
  | cons g rest ih =>
    intro acc
    have hg : wellFormedName g = true := hwf g (List.mem_cons_self g rest)
    unfold wellFormedName at hg
    cases hp : parseCacheFilename g with
    | none => rw [hp] at hg; cases hg
    | some p =>
      obtain ⟨v, y⟩ := p
      have hstep : completedStep year acc g
          = .ok (if y = year then insert v acc else acc) := by
        rw [completedStep_eq, hp]
      rw [getCompletedAux_cons_ok year acc g rest _ hstep]
      have hrest : ∀ fn ∈ rest, wellFormedName fn = true :=
        fun fn hfn => hwf fn (List.mem_cons_of_mem g hfn)
      by_cases hy : y = year
      · rw [if_pos hy, ih hrest (insert v acc)]
        subst hy
        have hexp : expectedCompleted (g :: rest) y
            = insert v (expectedCompleted rest y) := by
          rw [expectedCompleted_cons, hp]
          simp
        rw [hexp]
        congr 1
        ext x
        simp only [Finset.mem_union, Finset.mem_insert]
        tauto
      · rw [if_neg hy, ih hrest acc]
        have hexp : expectedCompleted (g :: rest) year
            = expectedCompleted rest year := by
          rw [expectedCompleted_cons, hp]
          simp [hy]
        rw [hexp]

/-- The scan only ever grows its accumulator. -/
theorem getCompletedAux_mono (year : Int) (listing : List PyStr) :
    ∀ acc S, getCompletedAux year acc listing = .ok S → acc ⊆ S := by
  induction listing with
  | nil =>
    intro acc S h
    unfold getCompletedAux at h
    cases h
    exact Finset.Subset.refl _
  | cons g rest ih =>
    intro acc S h
    unfold getCompletedAux at h
    cases hs : completedStep year acc g with
    | error e => rw [hs] at h; cases h
    | ok acc' =>
      rw [hs] at h
      have hsub : acc ⊆ acc' := by
        rw [completedStep_eq] at hs
        cases hp : parseCacheFilename g with
        | none => rw [hp] at hs; cases hs
        | some p =>
          rw [hp] at hs
          by_cases hy : p.2 = year
          · simp only [hy, if_pos rfl] at hs
            cases hs
            exact Finset.subset_insert _ _
          · simp only [if_neg hy] at hs
            cases hs
            exact Finset.Subset.refl _
      exact hsub.trans (ih acc' S h)

/-- A filename parsing to `(v, year)` forces `v` into any successful
scan result. -/
theorem mem_of_getCompletedAux_ok (year : Int) (fn : PyStr) (v : PyStr)
    (listing : List PyStr) (hmem : fn ∈ listing)
    (hp : parseCacheFilename fn = some (v, year)) :
    ∀ acc S, getCompletedAux year acc listing = .ok S → v ∈ S := by
  induction listing with
  | nil => cases hmem
  | cons g rest ih =>
    intro acc S h
    unfold getCompletedAux at h
    cases hs : completedStep year acc g with
    | error e => rw [hs] at h; cases h
    | ok acc' =>
      rw [hs] at h
      rcases List.mem_cons.mp hmem with hfg | hrest
      · subst hfg
        rw [completedStep_eq, hp] at hs
        simp only [if_pos rfl] at hs
        cases hs
        exact getCompletedAux_mono year rest _ S h
          (Finset.mem_insert_self v acc)
      · exact ih hrest acc' S h

/-! ## Lemmas: the naming convention and its parsing -/

theorem splitDot_ne_nil (l : PyStr) : splitDot l ≠ [] := by
  cases l with
  | nil => simp [splitDot]
  | cons c rest =>
    unfold splitDot
    by_cases h : c = '.'
    · simp [h]
    · simp only [if_neg h]
      cases splitDot rest <;> simp

theorem splitDot_of_noDot (l : PyStr) (h : hasDot l = false) : splitDot l = [l] := by
  induction l with
  | nil => rfl
  | cons c rest ih =>
    unfold hasDot at h
    simp only [Bool.or_eq_false_iff, decide_eq_false_iff_not] at h
    unfold splitDot
    rw [if_neg h.1, ih h.2]

theorem splitDot_append (xs ys : PyStr) (h : hasDot xs = false) :
    splitDot (xs ++ ys) = (xs ++ (splitDot ys).headD []) :: (splitDot ys).tail := by
  induction xs with
  | nil =>
    cases hys : splitDot ys with
    | nil => exact absurd hys (splitDot_ne_nil ys)
    | cons p ps => simp [hys]
  | cons c xs ih =>
    unfold hasDot at h
    simp only [Bool.or_eq_false_iff, decide_eq_false_iff_not] at h
    have hxs := ih h.2
    simp only [List.cons_append]
    conv_lhs => unfold splitDot
    rw [if_neg h.1, hxs]

theorem splitDD_of_noDD (l : PyStr) (h : hasDD l = false) : splitDD l = [l] := by
  induction l with
  | nil => rfl
  | cons c rest ih =>
    cases rest with
    | nil => rfl
    | cons d rest2 =>
      unfold hasDD at h
      simp only [Bool.or_eq_false_iff, Bool.and_eq_false_iff,
        decide_eq_false_iff_not] at h
      unfold splitDD
      have hcd : ¬(c = '-' ∧ d = '-') := by
        rcases h.1 with h1 | h1
        · exact fun hh => h1 hh.1
        · exact fun hh => h1 hh.2
      rw [if_neg hcd, ih h.2]

theorem splitDD_ne_nil (l : PyStr) : splitDD l ≠ [] := by
  cases l with
  | nil => simp [splitDD]
  | cons c rest =>
    cases rest with
    | nil => simp [splitDD]
    | cons d rest2 =>
      unfold splitDD
      by_cases h : c = '-' ∧ d = '-'
      · simp [h]
      · simp only [if_neg h]
        cases splitDD (d :: rest2) <;> simp

/-- Splitting a clean prefix followed by the `"--"` delimiter: the first
delimiter occurrence is exactly at the junction. -/
theorem splitDD_append_dd (v rest : PyStr) (hdd : hasDD v = false)
    (hend : endsDash v = false) :
    splitDD (v ++ '-' :: '-' :: rest) = v :: splitDD rest := by
  induction v with
  | nil =>
    simp [splitDD]
  | cons c v' ih =>
    cases v' with
    | nil =>
      unfold endsDash at hend
      simp only [decide_eq_false_iff_not] at hend
      simp only [List.cons_append, List.nil_append]
      conv_lhs => unfold splitDD
      have hc : ¬(c = '-' ∧ '-' = '-') := fun hh => hend hh.1
      rw [if_neg hc]
      have hdash : splitDD ('-' :: '-' :: rest) = [] :: splitDD rest := by
        conv_lhs => unfold splitDD
        rw [if_pos ⟨rfl, rfl⟩]
      rw [hdash]
    | cons d v'' =>
      unfold hasDD at hdd
      simp only [Bool.or_eq_false_iff, Bool.and_eq_false_iff,
        decide_eq_false_iff_not] at hdd
      have hend' : endsDash (d :: v'') = false := hend
      have ihh := ih hdd.2 hend'
      simp only [List.cons_append] at ihh ⊢
      conv_lhs => unfold splitDD
      have hcd : ¬(c = '-' ∧ d = '-') := by
        rcases hdd.1 with h1 | h1
        · exact fun hh => h1 hh.1
        · exact fun hh => h1 hh.2
      rw [if_neg hcd, ihh]

/-! ## Lemmas: decimal formatting round-trips through parsing -/


theorem natDigitsAux_lt10 (fuel n : Nat) :
    ∀ d ∈ natDigitsAux fuel n, d < 10 := by
  induction fuel generalizing n with
  | zero => simp [natDigitsAux]
  | succ fuel ih =>
    cases n with
    | zero => simp [natDigitsAux]
    | succ m =>
      unfold natDigitsAux
      intro d hd
      rcases List.mem_cons.mp hd with h | h
      · subst h; exact Nat.mod_lt _ (by omega)
      · exact ih _ d h

theorem ofDigitsLSB_natDigitsAux (fuel : Nat) :
    ∀ n, n ≤ fuel → ofDigitsLSB (natDigitsAux fuel n) = n := by
  induction fuel with
  | zero =>
    intro n hn
    interval_cases n
    rfl
  | succ fuel ih =>
    intro n hn
    cases n with
    | zero => rfl
    | succ m =>
      have hstep : natDigitsAux (fuel + 1) (m + 1)
          = ((m + 1) % 10) :: natDigitsAux fuel ((m + 1) / 10) := rfl
      have hofd : ∀ d ds, ofDigitsLSB (d :: ds) = d + 10 * ofDigitsLSB ds :=
        fun d ds => rfl
      rw [hstep, hofd]
      have hdiv : (m + 1) / 10 ≤ fuel := by
        have h10 : (m + 1) / 10 < m + 1 := Nat.div_lt_self (by omega) (by omega)
        omega
      rw [ih _ hdiv]
      omega

/-- The facts needed about decimal digit characters, once and for all. -/
theorem digitChar_spec (d : Nat) (h : d < 10) :
    (digitChar d).isDigit = true ∧ charVal (digitChar d) = d ∧
    digitChar d ≠ '-' ∧ digitChar d ≠ '+' ∧ digitChar d ≠ '.' ∧
    (digitChar d).isWhitespace = false := by
  interval_cases d <;> exact ⟨by decide, by decide, by decide, by decide, by decide, by decide⟩

theorem natToStr_ne_nil (n : Nat) : natToStr n ≠ [] := by
  unfold natToStr
  by_cases h : n = 0
  · simp [h]
  · simp only [if_neg h]
    obtain ⟨m, rfl⟩ := Nat.exists_eq_succ_of_ne_zero h
    unfold natDigitsAux
    simp

theorem natToStr_chars (n : Nat) :
    ∀ c ∈ natToStr n, ∃ d, d < 10 ∧ c = digitChar d := by
  intro c hc
  unfold natToStr at hc
  by_cases h : n = 0
  · rw [if_pos h] at hc
    simp only [List.mem_singleton] at hc
    exact ⟨0, by omega, by rw [hc]; rfl⟩
  · rw [if_neg h] at hc
    rw [List.mem_reverse] at hc
    obtain ⟨d, hd, rfl⟩ := List.mem_map.mp hc
    exact ⟨d, natDigitsAux_lt10 n n d hd, rfl⟩

theorem foldl_digits (L : List Nat) (hL : ∀ d ∈ L, d < 10) :
    ∀ a, ((L.map digitChar).reverse).foldl (fun x c => x * 10 + charVal c) a
      = a * 10 ^ L.length + ofDigitsLSB L := by
  induction L with
  | nil => intro a; simp [ofDigitsLSB]
  | cons d ds ih =>
    intro a
    have hd : d < 10 := hL d (List.mem_cons_self d ds)
    have hds : ∀ x ∈ ds, x < 10 := fun x hx => hL x (List.mem_cons_of_mem d hx)
    simp only [List.map_cons, List.reverse_cons, List.foldl_append, List.foldl_cons,
      List.foldl_nil]
    rw [ih hds a, (digitChar_spec d hd).2.1]
    have hofd : ofDigitsLSB (d :: ds) = d + 10 * ofDigitsLSB ds := rfl
    rw [hofd, List.length_cons, pow_succ]
    ring

theorem digitsToNat_natToStr (n : Nat) : digitsToNat (natToStr n) = some n := by
  by_cases h : n = 0
  · subst h; decide
  · have hne := natToStr_ne_nil n
    have hchars := natToStr_chars n
    unfold digitsToNat
    rw [if_neg hne]
    have hall : (natToStr n).all Char.isDigit = true := by
      rw [List.all_eq_true]
      intro c hc
      obtain ⟨d, hd, rfl⟩ := hchars c hc
      exact (digitChar_spec d hd).1
    rw [if_pos hall]
    unfold digitsVal
    unfold natToStr
    rw [if_neg h]
    unfold natToStr at *
    rw [foldl_digits _ (natDigitsAux_lt10 n n) 0,
      ofDigitsLSB_natDigitsAux n n (le_refl n)]
    simp

theorem dropWhile_of_all_false (p : Char → Bool) (l : PyStr)
    (h : ∀ c ∈ l, p c = false) : l.dropWhile p = l := by
  cases l with
  | nil => rfl
  | cons c rest =>
    rw [List.dropWhile_cons, h c (List.mem_cons_self c rest)]
    simp

theorem stripWS_eq_self (s : PyStr) (h : ∀ c ∈ s, c.isWhitespace = false) :
    stripWS s = s := by
  unfold stripWS
  rw [dropWhile_of_all_false _ _ h]
  rw [dropWhile_of_all_false _ _ (fun c hc => h c (List.mem_reverse.mp hc))]
  exact List.reverse_reverse s

theorem natToStr_no_ws (n : Nat) : ∀ c ∈ natToStr n, c.isWhitespace = false := by
  intro c hc
  obtain ⟨d, hd, rfl⟩ := natToStr_chars n c hc
  exact (digitChar_spec d hd).2.2.2.2.2

theorem pyInt_natToStr (n : Nat) : pyInt (natToStr n) = some (n : Int) := by
  unfold pyInt
  simp only [stripWS_eq_self _ (natToStr_no_ws n)]
  have hhead : (natToStr n).headD ' ' ≠ '-' ∧ (natToStr n).headD ' ' ≠ '+' := by
    cases hs : natToStr n with
    | nil => exact absurd hs (natToStr_ne_nil n)
    | cons c cs =>
      have hc : ∃ d, d < 10 ∧ c = digitChar d := by
        apply natToStr_chars n
        rw [hs]; exact List.mem_cons_self c cs
      obtain ⟨d, hd, rfl⟩ := hc
      exact ⟨by simpa using (digitChar_spec d hd).2.2.1,
             by simpa using (digitChar_spec d hd).2.2.2.1⟩
  rw [if_neg hhead.1, if_neg hhead.2, digitsToNat_natToStr n]
  rfl

theorem pyInt_intToStr (y : Int) : pyInt (intToStr y) = some y := by
  cases y with
  | ofNat n => exact pyInt_natToStr n
  | negSucc n =>
    have hws : ∀ c ∈ '-' :: natToStr (n + 1), c.isWhitespace = false := by
      intro c hc
      rcases List.mem_cons.mp hc with h | h
      · subst h; decide
      · exact natToStr_no_ws (n + 1) c h
    have hstrip : stripWS ('-' :: natToStr (n + 1)) = '-' :: natToStr (n + 1) :=
      stripWS_eq_self _ hws
    simp only [intToStr, pyInt, hstrip, List.headD_cons, List.tail_cons, if_true]
    rw [digitsToNat_natToStr (n + 1)]
    show some (-((n + 1 : Nat) : Int)) = some (Int.negSucc n)
    congr 1

theorem hasDot_cons (c : Char) (l : PyStr) :
    hasDot (c :: l) = (decide (c = '.') || hasDot l) := rfl

theorem hasDD_cons2 (c d : Char) (l : PyStr) :
    hasDD (c :: d :: l) = ((decide (c = '-') && decide (d = '-')) || hasDD (d :: l)) := rfl

theorem hasDot_append (xs ys : PyStr) :
    hasDot (xs ++ ys) = (hasDot xs || hasDot ys) := by
  induction xs with
  | nil => simp [hasDot]
  | cons c xs ih =>
    simp only [List.cons_append, hasDot_cons]
    rw [ih, Bool.or_assoc]

theorem hasDot_eq_false (l : PyStr) (h : ∀ c ∈ l, c ≠ '.') : hasDot l = false := by
  induction l with
  | nil => rfl
  | cons c rest ih =>
    unfold hasDot
    simp only [Bool.or_eq_false_iff, decide_eq_false_iff_not]
    exact ⟨h c (List.mem_cons_self c rest),
           ih (fun x hx => h x (List.mem_cons_of_mem c hx))⟩

theorem hasDD_of_no_dash (l : PyStr) (h : ∀ c ∈ l, c ≠ '-') : hasDD l = false := by
  induction l with
  | nil => rfl
  | cons c rest ih =>
    cases rest with
    | nil => rfl
    | cons d rest2 =>
      rw [hasDD_cons2]
      have hc : c ≠ '-' := h c (List.mem_cons_self c _)
      rw [ih (fun x hx => h x (List.mem_cons_of_mem c hx))]
      simp [hc]

theorem intToStr_chars (y : Int) :
    ∀ c ∈ intToStr y, c = '-' ∨ ∃ d, d < 10 ∧ c = digitChar d := by
  cases y with
  | ofNat n =>
    intro c hc
    exact Or.inr (natToStr_chars n c hc)
  | negSucc n =>
    intro c hc
    rcases List.mem_cons.mp hc with h | h
    · exact Or.inl h
    · exact Or.inr (natToStr_chars (n + 1) c h)

theorem hasDot_intToStr (y : Int) : hasDot (intToStr y) = false := by
  apply hasDot_eq_false
  intro c hc
  rcases intToStr_chars y c hc with h | ⟨d, hd, rfl⟩
  · subst h; decide
  · exact (digitChar_spec d hd).2.2.2.2.1

theorem hasDD_natToStr (n : Nat) : hasDD (natToStr n) = false := by
  apply hasDD_of_no_dash
  intro c hc
  obtain ⟨d, hd, rfl⟩ := natToStr_chars n c hc
  exact (digitChar_spec d hd).2.2.1

theorem hasDD_intToStr (y : Int) : hasDD (intToStr y) = false := by
  cases y with
  | ofNat n => exact hasDD_natToStr n
  | negSucc n =>
    show hasDD ('-' :: natToStr (n + 1)) = false
    cases hs : natToStr (n + 1) with
    | nil => exact absurd hs (natToStr_ne_nil (n + 1))
    | cons e es =>
      have he : e ≠ '-' := by
        have : ∃ d, d < 10 ∧ e = digitChar d := by
          apply natToStr_chars (n + 1)
          rw [hs]; exact List.mem_cons_self e es
        obtain ⟨d, hd, rfl⟩ := this
        exact (digitChar_spec d hd).2.2.1
      have htail : hasDD (e :: es) = false := by
        rw [← hs]; exact hasDD_natToStr (n + 1)
      rw [hasDD_cons2, htail]
      simp [he]

/-- The central naming-convention fact: a clean variable identifier,
written as `f"{var}--{year}.feather"`, is parsed back to exactly
`(var, year)` by the Completion Tracker's filename parsing. -/
theorem parse_cacheName (v : PyStr) (y : Int) (h : cleanVarId v = true) :
    parseCacheFilename (cacheName v y) = some (v, y) := by
  unfold cleanVarId at h
  simp only [Bool.and_eq_true, Bool.not_eq_true'] at h
  obtain ⟨⟨hdot, hdd⟩, hend⟩ := h
  have hstem : (splitDot (cacheName v y)).headD [] = v ++ '-' :: '-' :: intToStr y := by
    have hxs : hasDot (v ++ '-' :: '-' :: intToStr y) = false := by
      rw [show ('-' :: '-' :: intToStr y : PyStr) = ['-', '-'] ++ intToStr y from rfl,
        hasDot_append, hasDot_append, hdot, hasDot_intToStr]
      decide
    have hfe : splitDot (".feather".data) = [] :: ["feather".data] := by decide
    have hsplit : splitDot ((v ++ '-' :: '-' :: intToStr y) ++ ".feather".data)
        = ((v ++ '-' :: '-' :: intToStr y) ++ []) :: ["feather".data] := by
      rw [splitDot_append _ _ hxs, hfe]
      rfl
    have hcn : cacheName v y = (v ++ '-' :: '-' :: intToStr y) ++ ".feather".data := by
      unfold cacheName
      simp [List.append_assoc]
    rw [hcn, hsplit]
    simp
  unfold parseCacheFilename
  rw [hstem, splitDD_append_dd v (intToStr y) hdd hend,
    splitDD_of_noDD (intToStr y) (hasDD_intToStr y)]
  show (pyInt (intToStr y)).map (fun yy => (v, yy)) = some (v, y)
  rw [pyInt_intToStr y]
  rfl

/-! ## Lemmas: the cache directory -/

theorem lookupFile_nil (fn : PyStr) : lookupFile [] fn = none := rfl

theorem lookupFile_cons (f : CacheFile) (rest : List CacheFile) (fn : PyStr) :
    lookupFile (f :: rest) fn
      = if f.filename = fn then some f.content else lookupFile rest fn := rfl

/-- After a write, a file of the written name is listed. -/
theorem mem_filenames_writeFeather (cache : List CacheFile) (fn : PyStr)
    (rows : List CacheRow) :
    fn ∈ (writeFeather cache fn rows).map CacheFile.filename := by
  unfold writeFeather
  by_cases h : cache.any (fun f => decide (f.filename = fn)) = true
  · rw [if_pos h, List.map_map]
    rw [List.any_eq_true] at h
    obtain ⟨f, hf, hfn⟩ := h
    rw [decide_eq_true_iff] at hfn
    apply List.mem_map.mpr
    exact ⟨f, hf, by simp [Function.comp, hfn]⟩
  · rw [if_neg h]
    simp

/-- A write touches no other filename's listing. -/
theorem not_mem_filenames_writeFeather (cache : List CacheFile) (fn : PyStr)
    (rows : List CacheRow) (g : PyStr) (hne : g ≠ fn)
    (h : g ∉ cache.map CacheFile.filename) :
    g ∉ (writeFeather cache fn rows).map CacheFile.filename := by
  unfold writeFeather
  by_cases hc : cache.any (fun f => decide (f.filename = fn)) = true
  · rw [if_pos hc, List.map_map]
    intro hmem
    obtain ⟨f, hf, hfn⟩ := List.mem_map.mp hmem
    apply h
    by_cases hff : f.filename = fn
    · simp only [Function.comp, if_pos hff] at hfn
      exact absurd hfn.symm hne
    · simp only [Function.comp, if_neg hff] at hfn
      exact List.mem_map.mpr ⟨f, hf, hfn⟩
  · rw [if_neg hc, List.map_append]
    intro hmem
    rcases List.mem_append.mp hmem with h1 | h1
    · exact h h1
    · simp only [List.map_cons, List.map_nil, List.mem_singleton] at h1
      exact hne h1

/-- A write leaves the content found at any other filename unchanged. -/
theorem lookupFile_writeFeather_ne (cache : List CacheFile) (fn : PyStr)
    (rows : List CacheRow) (g : PyStr) (hne : g ≠ fn) :
    lookupFile (writeFeather cache fn rows) g = lookupFile cache g := by
  unfold writeFeather
  by_cases hc : cache.any (fun f => decide (f.filename = fn)) = true
  · rw [if_pos hc]
    clear hc
    induction cache with
    | nil => rfl
    | cons f rest ih =>
      simp only [List.map_cons]
      by_cases hff : f.filename = fn
      · rw [if_pos hff, lookupFile_cons, lookupFile_cons]
        have h1 : ¬((⟨fn, some rows⟩ : CacheFile).filename = g) :=
          fun hh => hne (hh.symm)
        have h2 : ¬(f.filename = g) := by
          rw [hff]; exact fun hh => hne hh.symm
        rw [if_neg h1, if_neg h2]
        exact ih
      · rw [if_neg hff, lookupFile_cons, lookupFile_cons]
        by_cases hf0 : f.filename = g
        · rw [if_pos hf0, if_pos hf0]
        · rw [if_neg hf0, if_neg hf0]
          exact ih
  · rw [if_neg hc]
    clear hc
    induction cache with
    | nil =>
      rw [List.nil_append, lookupFile_nil, lookupFile_cons]
      have h1 : ¬((⟨fn, some rows⟩ : CacheFile).filename = g) :=
        fun hh => hne (hh.symm)
      rw [if_neg h1, lookupFile_nil]
    | cons f rest ih =>
      rw [List.cons_append, lookupFile_cons, lookupFile_cons]
      by_cases hf0 : f.filename = g
      · rw [if_pos hf0, if_pos hf0]
      · rw [if_neg hf0, if_neg hf0]
        exact ih

/-! ## Lemmas: Merge Engine -/

theorem readFeather_ok_of_some (f : CacheFile) (rows : List CacheRow)
    (h : f.content = some rows) : readFeather f = .ok rows := by
  unfold readFeather
  rw [h]

theorem readFeather_err_of_none (f : CacheFile) (h : f.content = none) :
    readFeather f = .error "ArrowInvalid" := by
  unfold readFeather
  rw [h]

theorem readFeather_ok_content (f : CacheFile) (rows : List CacheRow)
    (h : readFeather f = .ok rows) : f.content = some rows := by
  unfold readFeather at h
  cases hc : f.content with
  | some r => rw [hc] at h; cases h; rfl
  | none => rw [hc] at h; cases h

theorem concatLongAux_cons_err (f : CacheFile) (rest : List CacheFile)
    (e : String) (h : readFeather f = .error e) :
    concatLongAux (f :: rest) = .error e := by
  conv_lhs => unfold concatLongAux
  rw [h]

theorem concatLongAux_cons_err2 (f : CacheFile) (rest : List CacheFile)
    (rows : List CacheRow) (e : String) (hr : readFeather f = .ok rows)
    (ha : concatLongAux rest = .error e) :
    concatLongAux (f :: rest) = .error e := by
  conv_lhs => unfold concatLongAux
  rw [hr, ha]

theorem concatLongAux_cons_ok (f : CacheFile) (rest : List CacheFile)
    (rows : List CacheRow) (dfs : List DF) (vars : List PyStr)
    (hr : readFeather f = .ok rows) (ha : concatLongAux rest = .ok (dfs, vars)) :
    concatLongAux (f :: rest)
      = .ok ((rows.map (longRowOf (varNameOf f.filename))) :: dfs,
             varNameOf f.filename :: vars) := by
  conv_lhs => unfold concatLongAux
  rw [hr, ha]

/-- On a directory of readable files, the long-merge loop returns one
transformed table per file plus every filename's variable name. -/
theorem concatLongAux_of_readable (dir : List CacheFile)
    (h : ∀ g ∈ dir, g.content.isSome) :
    concatLongAux dir
      = .ok (dir.map (fun g => (g.content.getD []).map (longRowOf (varNameOf g.filename))),
             dir.map (fun g => varNameOf g.filename)) := by
  induction dir with
  | nil => rfl
  | cons f rest ih =>
    obtain ⟨rows, hrow⟩ := Option.isSome_iff_exists.mp (h f (List.mem_cons_self f rest))
    have hrest := ih (fun g hg => h g (List.mem_cons_of_mem f hg))
    rw [concatLongAux_cons_ok f rest rows _ _ (readFeather_ok_of_some f rows hrow) hrest]
    simp [hrow]

/-- Any unreadable file anywhere in the directory aborts the long-merge
loop with its read error. -/
theorem concatLongAux_error (dir : List CacheFile) (g : CacheFile)
    (hg : g ∈ dir) (hnone : g.content = none) :
    ∃ e, concatLongAux dir = .error e := by
  induction dir with
  | nil => cases hg
  | cons f rest ih =>
    cases hf : readFeather f with
    | error e => exact ⟨e, concatLongAux_cons_err f rest e hf⟩
    | ok rows =>
      rcases List.mem_cons.mp hg with hgf | hgrest
      · subst hgf
        rw [readFeather_ok_content g rows hf] at hnone
        cases hnone
      · obtain ⟨e, he⟩ := ih hgrest
        exact ⟨e, concatLongAux_cons_err2 f rest rows e hf he⟩

/-- When the loop returns, the variable list is exactly the filenames'
derived variable names and every file was readable. -/
theorem concatLongAux_ok_inv (dir : List CacheFile) (dfs : List DF)
    (vars : List PyStr) (h : concatLongAux dir = .ok (dfs, vars)) :
    vars = dir.map (fun g => varNameOf g.filename) ∧ ∀ g ∈ dir, g.content.isSome := by
  by_cases hr : ∀ g ∈ dir, g.content.isSome
  · rw [concatLongAux_of_readable dir hr] at h
    cases h
    exact ⟨rfl, hr⟩
  · push_neg at hr
    obtain ⟨g, hg, hnone⟩ := hr
    obtain ⟨e, he⟩ := concatLongAux_error dir g hg (Option.not_isSome_iff_eq_none.mp hnone)
    rw [he] at h
    cases h

theorem concatWideAux_nil (t : Option DF) (vs : List PyStr) :
    concatWideAux t vs [] = .ok (t, vs) := rfl

theorem concatWideAux_cons_err (t : Option DF) (vs : List PyStr)
    (f : CacheFile) (rest : List CacheFile) (e : String)
    (h : readFeather f = .error e) :
    concatWideAux t vs (f :: rest) = .error e := by
  conv_lhs => unfold concatWideAux
  rw [h]

theorem concatWideAux_cons_none (vs : List PyStr) (f : CacheFile)
    (rest : List CacheFile) (rows : List CacheRow)
    (h : readFeather f = .ok rows) :
    concatWideAux none vs (f :: rest)
      = concatWideAux
          (some ((rows.map (fun r => (r.state ++ r.subGeo, r.value))).map
            (fun p => [("unique_id".data, some p.1), (varNameOf f.filename, some p.2)])))
          (vs ++ [varNameOf f.filename]) rest := by
  conv_lhs => unfold concatWideAux
  rw [h]

theorem concatWideAux_cons_some (t : DF) (vs : List PyStr) (f : CacheFile)
    (rest : List CacheFile) (rows : List CacheRow)
    (h : readFeather f = .ok rows) :
    concatWideAux (some t) vs (f :: rest)
      = concatWideAux
          (some (leftMergeVar t (varNameOf f.filename)
            (rows.map (fun r => (r.state ++ r.subGeo, r.value)))))
          (vs ++ [varNameOf f.filename]) rest := by
  conv_lhs => unfold concatWideAux
  rw [h]

/-- Any unreadable file anywhere in the directory aborts the wide-merge
loop with its read error. -/
theorem concatWideAux_error (dir : List CacheFile) (g : CacheFile)
    (hg : g ∈ dir) (hnone : g.content = none) :
    ∀ t vs, ∃ e, concatWideAux t vs dir = .error e := by
  induction dir with
  | nil => cases hg
  | cons f rest ih =>
    intro t vs
    cases hf : readFeather f with
    | error e => exact ⟨e, concatWideAux_cons_err t vs f rest e hf⟩
    | ok rows =>
      rcases List.mem_cons.mp hg with hgf | hgrest
      · subst hgf
        rw [readFeather_ok_content g rows hf] at hnone
        cases hnone
      · cases t with
        | none =>
          obtain ⟨e, he⟩ := ih hgrest _ (vs ++ [varNameOf f.filename])
          exact ⟨e, by rw [concatWideAux_cons_none vs f rest rows hf]; exact he⟩
        | some td =>
          obtain ⟨e, he⟩ := ih hgrest _ (vs ++ [varNameOf f.filename])
          exact ⟨e, by rw [concatWideAux_cons_some td vs f rest rows hf]; exact he⟩

/-- On readable input the wide-merge loop returns successfully. -/
theorem concatWideAux_ok_of_readable (dir : List CacheFile)
    (h : ∀ g ∈ dir, g.content.isSome) :
    ∀ t vs, ∃ res, concatWideAux t vs dir = .ok res := by
  induction dir with
  | nil => exact fun t vs => ⟨(t, vs), rfl⟩
  | cons f rest ih =>
    intro t vs
    obtain ⟨rows, hrow⟩ := Option.isSome_iff_exists.mp (h f (List.mem_cons_self f rest))
    have hf := readFeather_ok_of_some f rows hrow
    have hrest := ih (fun g hg => h g (List.mem_cons_of_mem f hg))
    cases t with
    | none =>
      obtain ⟨res, hres⟩ := hrest _ (vs ++ [varNameOf f.filename])
      exact ⟨res, by rw [concatWideAux_cons_none vs f rest rows hf]; exact hres⟩
    | some td =>
      obtain ⟨res, hres⟩ := hrest _ (vs ++ [varNameOf f.filename])
      exact ⟨res, by rw [concatWideAux_cons_some td vs f rest rows hf]; exact hres⟩

/-- When the wide loop returns, the variable list is exactly the input
accumulator extended with every filename's variable name, and every
file was readable. -/
theorem concatWideAux_ok_inv (dir : List CacheFile) :
    ∀ t vs t' vars', concatWideAux t vs dir = .ok (t', vars') →
      vars' = vs ++ dir.map (fun g => varNameOf g.filename) ∧
      ∀ g ∈ dir, g.content.isSome := by
  induction dir with
  | nil =>
    intro t vs t' vars' h
    rw [concatWideAux_nil] at h
    cases h
    simp
  | cons f rest ih =>
    intro t vs t' vars' h
    cases hf : readFeather f with
    | error e =>
      rw [concatWideAux_cons_err t vs f rest e hf] at h
      cases h
    | ok rows =>
      have hcontent := readFeather_ok_content f rows hf
      have hsome : f.content.isSome := by rw [hcontent]; rfl
      cases t with
      | none =>
        rw [concatWideAux_cons_none vs f rest rows hf] at h
        obtain ⟨hvars, hread⟩ := ih _ _ _ _ h
        refine ⟨by rw [hvars]; simp, ?_⟩
        intro g hg
        rcases List.mem_cons.mp hg with hgf | hgrest
        · subst hgf; exact hsome
        · exact hread g hgrest
      | some td =>
        rw [concatWideAux_cons_some td vs f rest rows hf] at h
        obtain ⟨hvars, hread⟩ := ih _ _ _ _ h
        refine ⟨by rw [hvars]; simp, ?_⟩
        intro g hg
        rcases List.mem_cons.mp hg with hgf | hgrest
        · subst hgf; exact hsome
        · exact hread g hgrest

theorem rowLookup_nil (k : PyStr) : rowLookup [] k = none := rfl

theorem rowLookup_cons (k' : PyStr) (v : Option PyStr) (rest : Row) (k : PyStr) :
    rowLookup ((k', v) :: rest) k
      = if k' = k then some v else rowLookup rest k := rfl

/-- Appending columns on the right never changes an existing column's
cell (pandas keeps the left table's columns on a join). -/
theorem rowLookup_append_of_some (row : Row) (ext : Row) (k : PyStr)
    (x : Option PyStr) (h : rowLookup row k = some x) :
    rowLookup (row ++ ext) k = some x := by
  induction row with
  | nil => rw [rowLookup_nil] at h; cases h
  | cons p rest ih =>
    obtain ⟨k', v⟩ := p
    rw [rowLookup_cons] at h
    rw [List.cons_append, rowLookup_cons]
    by_cases hk : k' = k
    · rw [if_pos hk] at h ⊢
      exact h
    · rw [if_neg hk] at h ⊢
      exact ih h

/-- Every row the left join emits is one of the base rows extended by
the single new column. -/
theorem mem_leftMergeVar (t : DF) (var : PyStr) (d : List (PyStr × PyStr))
    (row' : Row) (h : row' ∈ leftMergeVar t var d) :
    ∃ row ∈ t, ∃ cell, row' = row ++ [(var, cell)] := by
  unfold leftMergeVar at h
  rw [List.mem_flatMap] at h
  obtain ⟨row, hrow, hb⟩ := h
  refine ⟨row, hrow, ?_⟩
  cases hru : rowLookup row ("unique_id".data) with
  | none =>
    rw [hru] at hb
    simp only [List.mem_singleton] at hb
    exact ⟨none, hb⟩
  | some o =>
    cases o with
    | none =>
      rw [hru] at hb
      simp only [List.mem_singleton] at hb
      exact ⟨none, hb⟩
    | some u =>
      cases hd : d.filter (fun p => decide (p.1 = u)) with
      | nil =>
        simp only [hru, hd, List.mem_singleton] at hb
        exact ⟨none, hb⟩
      | cons m ms =>
        simp only [hru, hd, List.mem_map] at hb
        obtain ⟨p, _, hpe⟩ := hb
        exact ⟨some p.2, hpe.symm⟩

/-- Every base row survives the left join (with some cell for the new
column). -/
theorem leftMergeVar_exists (t : DF) (var : PyStr) (d : List (PyStr × PyStr))
    (row : Row) (hrow : row ∈ t) :
    ∃ cell, (row ++ [(var, cell)]) ∈ leftMergeVar t var d := by
  unfold leftMergeVar
  cases hru : rowLookup row ("unique_id".data) with
  | none =>
    exact ⟨none, List.mem_flatMap.mpr ⟨row, hrow, by rw [hru]; simp⟩⟩
  | some o =>
    cases o with
    | none =>
      exact ⟨none, List.mem_flatMap.mpr ⟨row, hrow, by rw [hru]; simp⟩⟩
    | some u =>
      cases hd : d.filter (fun p => decide (p.1 = u)) with
      | nil =>
        exact ⟨none, List.mem_flatMap.mpr ⟨row, hrow, by simp [hru, hd]⟩⟩
      | cons m ms =>
        refine ⟨some m.2, List.mem_flatMap.mpr ⟨row, hrow, ?_⟩⟩
        simp only [hru, hd]
        exact List.mem_map.mpr ⟨m, List.mem_cons_self m ms, rfl⟩

/-- The left join preserves the set of `unique_id`s of the base table:
no base row is lost, and no new `unique_id` appears. -/
theorem leftMergeVar_uid_iff (t : DF) (var : PyStr) (d : List (PyStr × PyStr))
    (hk : ∀ row ∈ t, ∃ u, rowLookup row ("unique_id".data) = some (some u)) :
    (∀ row' ∈ leftMergeVar t var d,
        ∃ u, rowLookup row' ("unique_id".data) = some (some u)) ∧
    (∀ u, (∃ row' ∈ leftMergeVar t var d,
              rowLookup row' ("unique_id".data) = some (some u)) ↔
          (∃ row ∈ t, rowLookup row ("unique_id".data) = some (some u))) := by
  constructor
  · intro row' h
    obtain ⟨row, hrow, cell, rfl⟩ := mem_leftMergeVar t var d row' h
    obtain ⟨u, hu⟩ := hk row hrow
    exact ⟨u, rowLookup_append_of_some _ _ _ _ hu⟩
  · intro u
    constructor
    · rintro ⟨row', h, hu'⟩
      obtain ⟨row, hrow, cell, rfl⟩ := mem_leftMergeVar t var d row' h
      obtain ⟨w, hw⟩ := hk row hrow
      rw [rowLookup_append_of_some _ _ _ _ hw] at hu'
      obtain rfl : w = u := by simpa using hu'
      exact ⟨row, hrow, hw⟩
    · rintro ⟨row, hrow, hu⟩
      obtain ⟨cell, hmem⟩ := leftMergeVar_exists t var d row hrow
      exact ⟨row ++ [(var, cell)], hmem, rowLookup_append_of_some _ _ _ _ hu⟩

/-- The wide-merge loop, run from a seeded base table over readable
files, succeeds and neither drops nor adds any `unique_id` of the
base. -/
theorem concatWideAux_uid_inv (dir : List CacheFile)
    (hread : ∀ g ∈ dir, g.content.isSome) :
    ∀ t vs, (∀ row ∈ t, ∃ u, rowLookup row ("unique_id".data) = some (some u)) →
    ∃ t' vars', concatWideAux (some t) vs dir = .ok (some t', vars') ∧
      (∀ row ∈ t', ∃ u, rowLookup row ("unique_id".data) = some (some u)) ∧
      (∀ u, (∃ row ∈ t', rowLookup row ("unique_id".data) = some (some u)) ↔
            (∃ row ∈ t, rowLookup row ("unique_id".data) = some (some u))) := by
  induction dir with
  | nil =>
    intro t vs hk
    exact ⟨t, vs, concatWideAux_nil (some t) vs, hk, fun u => Iff.rfl⟩
  | cons f rest ih =>
    intro t vs hk
    obtain ⟨rows, hrow⟩ := Option.isSome_iff_exists.mp (hread f (List.mem_cons_self f rest))
    have hf := readFeather_ok_of_some f rows hrow
    have hmerge := leftMergeVar_uid_iff t (varNameOf f.filename)
      (rows.map (fun r => (r.state ++ r.subGeo, r.value))) hk
    obtain ⟨t', vars', hrun, hk', hiff⟩ :=
      ih (fun g hg => hread g (List.mem_cons_of_mem f hg))
        (leftMergeVar t (varNameOf f.filename)
          (rows.map (fun r => (r.state ++ r.subGeo, r.value))))
        (vs ++ [varNameOf f.filename]) hmerge.1
    refine ⟨t', vars', ?_, hk', ?_⟩
    · rw [concatWideAux_cons_some t vs f rest rows hf]
      exact hrun
    · intro u
      exact (hiff u).trans (hmerge.2 u)

/-! ## Lemmas: the fetch loop -/

theorem cacheName_inj (v w : PyStr) (year : Int)
    (h : cacheName v year = cacheName w year) : v = w := by
  unfold cacheName at h
  exact List.append_cancel_right
    (List.append_cancel_right (List.append_cancel_right h))

theorem fetch_loop_nil (ff : PyStr → Except String (List CacheRow))
    (wo : PyStr → Bool) (year : Int) (S : Finset PyStr) (st : FetchState) :
    fetch_loop ff wo year S [] st = st := rfl

theorem fetch_loop_cons (ff : PyStr → Except String (List CacheRow))
    (wo : PyStr → Bool) (year : Int) (S : Finset PyStr) (v : PyStr)
    (vs : List PyStr) (st : FetchState) :
    fetch_loop ff wo year S (v :: vs) st
      = fetch_loop ff wo year S vs (fetchLoopStep ff wo year S st v) := rfl

theorem fetchLoopStep_skip (ff : PyStr → Except String (List CacheRow))
    (wo : PyStr → Bool) (year : Int) (S : Finset PyStr) (st : FetchState)
    (v : PyStr) (h : v ∈ S) : fetchLoopStep ff wo year S st v = st := by
  unfold fetchLoopStep
  rw [if_pos h]

theorem fetchLoopStep_err (ff : PyStr → Except String (List CacheRow))
    (wo : PyStr → Bool) (year : Int) (S : Finset PyStr) (st : FetchState)
    (v : PyStr) (e : String) (h : v ∉ S) (hf : ff v = .error e) :
    fetchLoopStep ff wo year S st v
      = { st with queried := st.queried ++ [v],
                  failures := st.failures ++ [(v, e)] } := by
  unfold fetchLoopStep
  rw [if_neg h, hf]

theorem fetchLoopStep_write (ff : PyStr → Except String (List CacheRow))
    (wo : PyStr → Bool) (year : Int) (S : Finset PyStr) (st : FetchState)
    (v : PyStr) (rows : List CacheRow) (h : v ∉ S) (hf : ff v = .ok rows)
    (hw : wo (cacheName v year) = true) :
    fetchLoopStep ff wo year S st v
      = { st with queried := st.queried ++ [v],
                  cache := writeFeather st.cache (cacheName v year) rows } := by
  unfold fetchLoopStep
  rw [if_neg h, hf]
  simp [hw]

theorem fetchLoopStep_wfail (ff : PyStr → Except String (List CacheRow))
    (wo : PyStr → Bool) (year : Int) (S : Finset PyStr) (st : FetchState)
    (v : PyStr) (rows : List CacheRow) (h : v ∉ S) (hf : ff v = .ok rows)
    (hw : wo (cacheName v year) = false) :
    fetchLoopStep ff wo year S st v
      = { st with queried := st.queried ++ [v],
                  failures := st.failures ++ [(v, "CacheWriteError")] } := by
  unfold fetchLoopStep
  rw [if_neg h, hf]
  simp [hw]

/-- Skipping aside, every iteration issues exactly one remote query. -/
theorem fetchLoopStep_queried (ff : PyStr → Except String (List CacheRow))
    (wo : PyStr → Bool) (year : Int) (S : Finset PyStr) (st : FetchState)
    (v : PyStr) (h : v ∉ S) :
    (fetchLoopStep ff wo year S st v).queried = st.queried ++ [v] := by
  cases hf : ff v with
  | error e => rw [fetchLoopStep_err ff wo year S st v e h hf]
  | ok rows =>
    by_cases hw : wo (cacheName v year) = true
    · rw [fetchLoopStep_write ff wo year S st v rows h hf hw]
    · rw [fetchLoopStep_wfail ff wo year S st v rows h hf
        (Bool.not_eq_true _ ▸ hw)]

/-- A step never shrinks the failure report. -/
theorem fetchLoopStep_failures_mono (ff : PyStr → Except String (List CacheRow))
    (wo : PyStr → Bool) (year : Int) (S : Finset PyStr) (st : FetchState)
    (v : PyStr) (x : PyStr × String) (hx : x ∈ st.failures) :
    x ∈ (fetchLoopStep ff wo year S st v).failures := by
  by_cases h : v ∈ S
  · rw [fetchLoopStep_skip ff wo year S st v h]; exact hx
  · cases hf : ff v with
    | error e =>
      rw [fetchLoopStep_err ff wo year S st v e h hf]
      exact List.mem_append_left _ hx
    | ok rows =>
      by_cases hw : wo (cacheName v year) = true
      · rw [fetchLoopStep_write ff wo year S st v rows h hf hw]; exact hx
      · rw [fetchLoopStep_wfail ff wo year S st v rows h hf (Bool.not_eq_true _ ▸ hw)]
        exact List.mem_append_left _ hx

theorem fetch_loop_failures_mono (ff : PyStr → Except String (List CacheRow))
    (wo : PyStr → Bool) (year : Int) (S : Finset PyStr) (vs : List PyStr) :
    ∀ st x, x ∈ st.failures → x ∈ (fetch_loop ff wo year S vs st).failures := by
  induction vs with
  | nil => intro st x hx; rw [fetch_loop_nil]; exact hx
  | cons v vs ih =>
    intro st x hx
    rw [fetch_loop_cons]
    exact ih _ x (fetchLoopStep_failures_mono ff wo year S st v x hx)

/-- The loop queries exactly the variables not in the completed set, in
order, regardless of failures. -/
theorem fetch_loop_queried (ff : PyStr → Except String (List CacheRow))
    (wo : PyStr → Bool) (year : Int) (S : Finset PyStr) (vs : List PyStr) :
    ∀ st, (fetch_loop ff wo year S vs st).queried
      = st.queried ++ vs.filter (fun v => decide (v ∉ S)) := by
  induction vs with
  | nil => intro st; rw [fetch_loop_nil]; simp
  | cons v vs ih =>
    intro st
    rw [fetch_loop_cons, ih]
    by_cases h : v ∈ S
    · rw [fetchLoopStep_skip ff wo year S st v h]
      have : (decide (v ∉ S)) = false := by simp [h]
      rw [List.filter_cons, this]
      simp
    · have hq := fetchLoopStep_queried ff wo year S st v h
      have : (decide (v ∉ S)) = true := by simp [h]
      rw [List.filter_cons, this, hq]
      simp

/-- A variable whose remote query fails is reported with its error. -/
theorem fetch_loop_err_reported (ff : PyStr → Except String (List CacheRow))
    (wo : PyStr → Bool) (year : Int) (S : Finset PyStr) (vs : List PyStr)
    (v : PyStr) (e : String) (hv : v ∈ vs) (hS : v ∉ S) (hf : ff v = .error e) :
    ∀ st, (v, e) ∈ (fetch_loop ff wo year S vs st).failures := by
  induction vs with
  | nil => cases hv
  | cons w vs ih =>
    intro st
    rw [fetch_loop_cons]
    by_cases hwv : w = v
    · subst hwv
      rw [fetchLoopStep_err ff wo year S st w e hS hf]
      apply fetch_loop_failures_mono
      simp
    · rcases List.mem_cons.mp hv with h | h
      · exact absurd h.symm hwv
      · exact ih h _

/-- A variable whose cache write fails is reported. -/
theorem fetch_loop_wfail_reported (ff : PyStr → Except String (List CacheRow))
    (wo : PyStr → Bool) (year : Int) (S : Finset PyStr) (vs : List PyStr)
    (v : PyStr) (rows : List CacheRow) (hv : v ∈ vs) (hS : v ∉ S)
    (hf : ff v = .ok rows) (hw : wo (cacheName v year) = false) :
    ∀ st, (v, "CacheWriteError") ∈ (fetch_loop ff wo year S vs st).failures := by
  induction vs with
  | nil => cases hv
  | cons w vs ih =>
    intro st
    rw [fetch_loop_cons]
    by_cases hwv : w = v
    · subst hwv
      rw [fetchLoopStep_wfail ff wo year S st w rows hS hf hw]
      apply fetch_loop_failures_mono
      simp
    · rcases List.mem_cons.mp hv with h | h
      · exact absurd h.symm hwv
      · exact ih h _

/-- A variable whose fetch or write fails leaves no file in the cache:
the loop only ever writes `cacheName w year` for a variable `w` whose
fetch and write both succeed. -/
theorem fetch_loop_cache_absent (ff : PyStr → Except String (List CacheRow))
    (wo : PyStr → Bool) (year : Int) (S : Finset PyStr) (vs : List PyStr)
    (g : PyStr)
    (hsafe : ∀ w ∈ vs, w ∉ S → cacheName w year = g →
      (∃ e, ff w = .error e) ∨ (∀ rows, ff w = .ok rows → wo g = false)) :
    ∀ st, g ∉ st.cache.map CacheFile.filename →
      g ∉ (fetch_loop ff wo year S vs st).cache.map CacheFile.filename := by
  induction vs with
  | nil => intro st habs; rw [fetch_loop_nil]; exact habs
  | cons w vs ih =>
    intro st habs
    have hsafe' : ∀ x ∈ vs, x ∉ S → cacheName x year = g →
        (∃ e, ff x = .error e) ∨ (∀ rows, ff x = .ok rows → wo g = false) :=
      fun x hx => hsafe x (List.mem_cons_of_mem w hx)
    rw [fetch_loop_cons]
    by_cases hmem : w ∈ S
    · rw [fetchLoopStep_skip ff wo year S st w hmem]
      exact ih hsafe' st habs
    · cases hf : ff w with
      | error e =>
        rw [fetchLoopStep_err ff wo year S st w e hmem hf]
        exact ih hsafe' _ habs
      | ok rows =>
        by_cases hw : wo (cacheName w year) = true
        · rw [fetchLoopStep_write ff wo year S st w rows hmem hf hw]
          apply ih hsafe'
          by_cases hg : cacheName w year = g
          · rcases hsafe w (List.mem_cons_self w vs) hmem hg with ⟨e, he⟩ | hfail
            · rw [he] at hf; cases hf
            · have hwg : wo g = true := by rw [← hg]; exact hw
              rw [hfail rows hf] at hwg
              cases hwg
          · exact not_mem_filenames_writeFeather st.cache (cacheName w year)
              rows g (fun hh => hg hh.symm) habs
        · rw [fetchLoopStep_wfail ff wo year S st w rows hmem hf
            (Bool.not_eq_true _ ▸ hw)]
          exact ih hsafe' _ habs

/-- The loop leaves the content found at any filename it never writes
unchanged. -/
theorem fetch_loop_lookup_keep (ff : PyStr → Except String (List CacheRow))
    (wo : PyStr → Bool) (year : Int) (S : Finset PyStr) (vs : List PyStr)
    (g : PyStr) (hsafe : ∀ w ∈ vs, w ∉ S → cacheName w year ≠ g) :
    ∀ st, lookupFile (fetch_loop ff wo year S vs st).cache g
      = lookupFile st.cache g := by
  induction vs with
  | nil => intro st; rw [fetch_loop_nil]
  | cons w vs ih =>
    intro st
    have hsafe' : ∀ x ∈ vs, x ∉ S → cacheName x year ≠ g :=
      fun x hx => hsafe x (List.mem_cons_of_mem w hx)
    rw [fetch_loop_cons]
    by_cases hmem : w ∈ S
    · rw [fetchLoopStep_skip ff wo year S st w hmem, ih hsafe']
    · cases hf : ff w with
      | error e =>
        rw [fetchLoopStep_err ff wo year S st w e hmem hf, ih hsafe']
      | ok rows =>
        by_cases hw : wo (cacheName w year) = true
        · rw [fetchLoopStep_write ff wo year S st w rows hmem hf hw, ih hsafe']
          exact lookupFile_writeFeather_ne st.cache (cacheName w year) rows g
            (fun hh => hsafe w (List.mem_cons_self w vs) hmem hh.symm)
        · rw [fetchLoopStep_wfail ff wo year S st w rows hmem hf
            (Bool.not_eq_true _ ▸ hw), ih hsafe']

/-! ## Wrapper lemmas for the two merge entry points -/

theorem concatLong_of_aux_err (dir : List CacheFile) (e : String)
    (h : concatLongAux dir = .error e) :
    concatenate_variables_long dir = .error e := by
  unfold concatenate_variables_long
  rw [h]

theorem concatLong_of_aux_ok (dir : List CacheFile) (dfs : List DF)
    (vars : List PyStr) (h : concatLongAux dir = .ok (dfs, vars))
    (hne : dfs ≠ []) :
    concatenate_variables_long dir = .ok (dfs.flatten, vars) := by
  unfold concatenate_variables_long
  rw [h]
  simp [hne]

theorem concatWide_eq_aux (dir : List CacheFile) :
    concatenate_variables_wide dir = concatWideAux none [] dir := rfl

/-! ## The claims -/

/-- C10: on an empty cache directory the wide merge returns no dataset
at all, `(None, [])`, rather than an empty table, while the long merge
raises (`pd.concat` of an empty list of objects is a `ValueError`). -/
theorem C10_empty_dir_behavior :
    concatenate_variables_wide [] = .ok (none, []) ∧
    ∃ e, concatenate_variables_long [] = .error e :=
  ⟨rfl, "ValueError: no objects to concatenate", rfl⟩

/-- C1 as stated is false on the code: a filename without the `--`
delimiter makes the whole scan raise `ValueError` instead of being
skipped with the scan returning normally — the same listing without the
malformed file scans fine, so the malformed file alone is what kills
the scan. -/
theorem C1_counterexample :
    get_completed_vars ["badfile.ext".data, "A--2020.ext".data] 2020
      = .error "ValueError" ∧
    get_completed_vars ["A--2020.ext".data] 2020 = .ok {"A".data} := by
  exact ⟨by decide, by decide⟩

/-- C1 (amended): a filename that does not match the two-part
`<variable_id>--<year>` convention raises an unhandled error that
aborts the entire scan; no completed set is returned for any listing
containing such a file. -/
theorem C1_amended_malformed_aborts_scan (listing : List PyStr) (year : Int)
    (fn : PyStr) (hmem : fn ∈ listing) (hbad : wellFormedName fn = false) :
    ∃ e, get_completed_vars listing year = .error e :=
  getCompletedAux_error_of_malformed year fn listing hmem hbad ∅

/-- Witness for C1 (amended) at a concrete listing. -/
theorem C1_amended_witness :
    ∃ e, get_completed_vars ["badfile.ext".data, "A--2020.ext".data] 2020
      = .error e :=
  C1_amended_malformed_aborts_scan ["badfile.ext".data, "A--2020.ext".data]
    2020 "badfile.ext".data (by decide) (by decide)

/-- C4: on a listing whose filenames all follow the convention, the
Completion Tracker succeeds and returns exactly the identifiers whose
parsed year equals the target year; identifiers cached under other
years are ignored. -/
theorem C4_completed_filters_by_year (listing : List PyStr) (year : Int)
    (hwf : ∀ fn ∈ listing, wellFormedName fn = true) :
    get_completed_vars listing year = .ok (expectedCompleted listing year) := by
  unfold get_completed_vars
  rw [getCompletedAux_ok_of_wf year listing hwf ∅, Finset.empty_union]

/-- Witness for C4 on the spec's example listing, for both target
years. -/
theorem C4_witness :
    get_completed_vars
      ["A--2021.ext".data, "B--2020.ext".data, "A--2020.ext".data] 2020
      = .ok {"A".data, "B".data} ∧
    get_completed_vars
      ["A--2021.ext".data, "B--2020.ext".data, "A--2020.ext".data] 2021
      = .ok {"A".data} := by
  constructor
  · have h20 : expectedCompleted
        ["A--2021.ext".data, "B--2020.ext".data, "A--2020.ext".data] 2020
        = {"B".data, "A".data} := by decide
    rw [C4_completed_filters_by_year
      ["A--2021.ext".data, "B--2020.ext".data, "A--2020.ext".data] 2020 (by decide),
      h20, Finset.pair_comm]
  · have h21 : expectedCompleted
        ["A--2021.ext".data, "B--2020.ext".data, "A--2020.ext".data] 2021
        = {"A".data} := by decide
    rw [C4_completed_filters_by_year
      ["A--2021.ext".data, "B--2020.ext".data, "A--2020.ext".data] 2021 (by decide),
      h21]

/-- C2 as stated is false on the code: with one readable and one
corrupt file, both merges abort with the read error instead of skipping
the corrupt file and returning the readable data. -/
theorem C2_counterexample :
    concatenate_variables_long [exV1File, exCorruptFile] = .error "ArrowInvalid" ∧
    concatenate_variables_wide [exV1File, exCorruptFile] = .error "ArrowInvalid" := by
  exact ⟨by decide, by decide⟩

/-- C2 (amended): an individual unreadable/corrupt file is also fatal:
both merge variants propagate the first read error and return no
dataset at all; a consolidated dataset is returned (by the wide merge,
and by the long merge on a nonempty directory) only when every file is
readable. -/
theorem C2_amended_merge_aborts (dir : List CacheFile) :
    ((∃ g ∈ dir, g.content = none) →
      (∃ e, concatenate_variables_long dir = .error e) ∧
      (∃ e, concatenate_variables_wide dir = .error e)) ∧
    ((∀ g ∈ dir, g.content.isSome) → dir ≠ [] →
      (∃ r, concatenate_variables_long dir = .ok r) ∧
      (∃ r, concatenate_variables_wide dir = .ok r)) := by
  constructor
  · rintro ⟨g, hg, hnone⟩
    constructor
    · obtain ⟨e, he⟩ := concatLongAux_error dir g hg hnone
      exact ⟨e, concatLong_of_aux_err dir e he⟩
    · obtain ⟨e, he⟩ := concatWideAux_error dir g hg hnone none []
      exact ⟨e, by rw [concatWide_eq_aux]; exact he⟩
  · intro hread hne
    constructor
    · have h := concatLongAux_of_readable dir hread
      refine ⟨_, concatLong_of_aux_ok dir _ _ h ?_⟩
      intro hmap
      exact hne (List.map_eq_nil_iff.mp hmap)
    · obtain ⟨res, hres⟩ := concatWideAux_ok_of_readable dir hread none []
      exact ⟨res, by rw [concatWide_eq_aux]; exact hres⟩

/-- Witness for C2 (amended) at concrete directories. -/
theorem C2_amended_witness :
    ((∃ e, concatenate_variables_long [exV1File, exCorruptFile] = .error e) ∧
     (∃ e, concatenate_variables_wide [exV1File, exCorruptFile] = .error e)) ∧
    ((∃ r, concatenate_variables_long [exV1File] = .ok r) ∧
     (∃ r, concatenate_variables_wide [exV1File] = .ok r)) :=
  ⟨(C2_amended_merge_aborts [exV1File, exCorruptFile]).1
      ⟨exCorruptFile, by decide, rfl⟩,
   (C2_amended_merge_aborts [exV1File]).2 (by decide) (by decide)⟩

/-- C5: on a nonempty directory of readable files the long merge is the
plain concatenation of the per-file tables: the row count is the sum of
the per-file row counts, the variable list is the filenames' derived
variable names, every output row has exactly the columns
`value, unique_id, variable` (so no `state`/`tract`/`year`/`descr`
column survives), and each row's `variable` cell is the variable name
derived from its source filename. -/
theorem C5_long_merge_concat (dir : List CacheFile) (hne : dir ≠ [])
    (hread : ∀ g ∈ dir, g.content.isSome) :
    concatenate_variables_long dir
      = .ok ((dir.map (fun g =>
          (g.content.getD []).map (longRowOf (varNameOf g.filename)))).flatten,
        dir.map (fun g => varNameOf g.filename)) ∧
    ((dir.map (fun g =>
        (g.content.getD []).map (longRowOf (varNameOf g.filename)))).flatten).length
      = (dir.map (fun g => (g.content.getD []).length)).sum ∧
    (∀ row ∈ (dir.map (fun g =>
        (g.content.getD []).map (longRowOf (varNameOf g.filename)))).flatten,
      row.map Prod.fst = ["value".data, "unique_id".data, "variable".data] ∧
      "state".data ∉ row.map Prod.fst ∧ "tract".data ∉ row.map Prod.fst ∧
      "year".data ∉ row.map Prod.fst ∧ "descr".data ∉ row.map Prod.fst) ∧
    (∀ g ∈ dir, ∀ r ∈ g.content.getD [],
      rowLookup (longRowOf (varNameOf g.filename) r) ("variable".data)
        = some (some (varNameOf g.filename))) := by
  refine ⟨?_, ?_, ?_, ?_⟩
  · apply concatLong_of_aux_ok dir _ _ (concatLongAux_of_readable dir hread)
    intro hmap
    exact hne (List.map_eq_nil_iff.mp hmap)
  · rw [List.length_flatten, List.map_map]
    congr 1
    apply List.map_congr_left
    intro g _
    simp [Function.comp]
  · intro row hrow
    rw [List.mem_flatten] at hrow
    obtain ⟨df, hdf, hr⟩ := hrow
    rw [List.mem_map] at hdf
    obtain ⟨g, _, rfl⟩ := hdf
    rw [List.mem_map] at hr
    obtain ⟨r, _, rfl⟩ := hr
    have hkeys : (longRowOf (varNameOf g.filename) r).map Prod.fst
        = ["value".data, "unique_id".data, "variable".data] := rfl
    refine ⟨hkeys, ?_, ?_, ?_, ?_⟩ <;> rw [hkeys] <;> decide
  · intro g _ r _
    unfold longRowOf
    rw [rowLookup_cons, if_neg (by decide), rowLookup_cons, if_neg (by decide),
      rowLookup_cons, if_pos rfl]

/-- Witness for C5: five `V1` rows plus three `V2` rows give exactly
eight output rows. -/
theorem C5_witness :
    ∃ df, concatenate_variables_long [exV1File5, exV2File3]
        = .ok (df, ["V1".data, "V2".data]) ∧ df.length = 8 := by
  have h := C5_long_merge_concat [exV1File5, exV2File3] (by decide) (by decide)
  exact ⟨(List.map (fun g =>
      List.map (longRowOf (varNameOf g.filename)) (g.content.getD []))
      [exV1File5, exV2File3]).flatten, h.1.trans (by decide), by decide⟩

/-- C3: the wide merge seeds its result with the first file's
`(unique_id, <first_var>)` table and left-joins every later file on
`unique_id`, so on readable files the result's `unique_id` set is
exactly the first file's; on the concrete `{101,102}` vs `{102,103}`
example the result has exactly rows `101` and `102`, with `V2`
null/missing at `101` and `103` absent. -/
theorem C3_wide_left_join :
    (∀ (f0 : CacheFile) (rest : List CacheFile) (rs0 : List CacheRow),
      f0.content = some rs0 →
      (∀ g ∈ f0 :: rest, g.content.isSome) →
      ∃ df vars, concatenate_variables_wide (f0 :: rest) = .ok (some df, vars) ∧
        (∀ u, (∃ row ∈ df, rowLookup row ("unique_id".data) = some (some u)) ↔
              u ∈ rs0.map (fun r => r.state ++ r.subGeo))) ∧
    concatenate_variables_wide [exV1File, exV2File]
      = .ok (some exWideOut, ["V1".data, "V2".data]) := by
  constructor
  · intro f0 rest rs0 hc hread
    have hf := readFeather_ok_of_some f0 rs0 hc
    set seed : DF := (rs0.map (fun r => (r.state ++ r.subGeo, r.value))).map
      (fun p => [("unique_id".data, some p.1), (varNameOf f0.filename, some p.2)])
      with hseed
    have hk : ∀ row ∈ seed, ∃ u, rowLookup row ("unique_id".data) = some (some u) := by
      intro row hrow
      rw [hseed, List.mem_map] at hrow
      obtain ⟨p, _, rfl⟩ := hrow
      exact ⟨p.1, by rw [rowLookup_cons, if_pos rfl]⟩
    obtain ⟨t', vars', hrun, hk', hiff⟩ :=
      concatWideAux_uid_inv rest (fun g hg => hread g (List.mem_cons_of_mem f0 hg))
        seed [varNameOf f0.filename] hk
    refine ⟨t', vars', ?_, ?_⟩
    · rw [concatWide_eq_aux, concatWideAux_cons_none [] f0 rest rs0 hf]
      exact hrun
    · intro u
      rw [hiff u]
      constructor
      · rintro ⟨row, hrow, hu⟩
        rw [hseed, List.mem_map] at hrow
        obtain ⟨p, hp, rfl⟩ := hrow
        rw [rowLookup_cons, if_pos rfl] at hu
        obtain rfl : p.1 = u := by simpa using hu
        rw [List.mem_map] at hp
        obtain ⟨r, hr, hpr⟩ := hp
        rw [List.mem_map]
        exact ⟨r, hr, by rw [← hpr]⟩
      · intro hu
        rw [List.mem_map] at hu
        obtain ⟨r, hr, rfl⟩ := hu
        refine ⟨[("unique_id".data, some (r.state ++ r.subGeo)),
                 (varNameOf f0.filename, some r.value)], ?_, ?_⟩
        · rw [hseed, List.mem_map]
          exact ⟨(r.state ++ r.subGeo, r.value), List.mem_map.mpr ⟨r, hr, rfl⟩, rfl⟩
        · rw [rowLookup_cons, if_pos rfl]
  · decide

/-- Witness for C3's general part at the spec's example directory. -/
theorem C3_witness :
    ∃ df vars, concatenate_variables_wide [exV1File, exV2File]
        = .ok (some df, vars) ∧
      (∀ u, (∃ row ∈ df, rowLookup row ("unique_id".data) = some (some u)) ↔
            u ∈ (exV1File.content.getD []).map (fun r => r.state ++ r.subGeo)) :=
  C3_wide_left_join.1 exV1File [exV2File] (exV1File.content.getD [])
    (by decide) (by decide)

theorem concatLong_of_aux_nil (dir : List CacheFile) (vars : List PyStr)
    (h : concatLongAux dir = .ok ([], vars)) :
    concatenate_variables_long dir
      = .error "ValueError: no objects to concatenate" := by
  unfold concatenate_variables_long
  rw [h]
  rfl

/-- C8: whenever a merge run completes (so a manifest is written), the
manifest's variable list is exactly the variable names derived from the
cache filenames, each of whose files was successfully loaded into the
dataset; when any file fails to load, the merge returns no dataset at
all, so that file contributes to neither the dataset nor the
manifest. -/
theorem C8_manifest_consistency (dir : List CacheFile) :
    (∀ df vars, concatenate_variables_long dir = .ok (df, vars) →
      vars = dir.map (fun g => varNameOf g.filename) ∧
      ∀ g ∈ dir, g.content.isSome) ∧
    (∀ td vars, concatenate_variables_wide dir = .ok (td, vars) →
      vars = dir.map (fun g => varNameOf g.filename) ∧
      ∀ g ∈ dir, g.content.isSome) ∧
    (∀ g ∈ dir, g.content = none →
      (∀ x, concatenate_variables_long dir ≠ .ok x) ∧
      (∀ x, concatenate_variables_wide dir ≠ .ok x)) := by
  refine ⟨?_, ?_, ?_⟩
  · intro df vars h
    cases ha : concatLongAux dir with
    | error e => rw [concatLong_of_aux_err dir e ha] at h; cases h
    | ok p =>
      obtain ⟨dfs, vars0⟩ := p
      by_cases hne : dfs = []
      · subst hne
        rw [concatLong_of_aux_nil dir vars0 ha] at h
        cases h
      · rw [concatLong_of_aux_ok dir dfs vars0 ha hne] at h
        obtain ⟨h1, h2⟩ := Prod.mk.inj (Except.ok.inj h)
        obtain ⟨hv, hr⟩ := concatLongAux_ok_inv dir dfs vars0 ha
        exact ⟨by rw [← h2]; exact hv, hr⟩
  · intro td vars h
    rw [concatWide_eq_aux] at h
    have hinv := concatWideAux_ok_inv dir none [] td vars h
    simpa using hinv
  · intro g hg hnone
    constructor
    · intro x hx
      obtain ⟨e, he⟩ := concatLongAux_error dir g hg hnone
      rw [concatLong_of_aux_err dir e he] at hx
      cases hx
    · intro x hx
      rw [concatWide_eq_aux] at hx
      obtain ⟨e, he⟩ := concatWideAux_error dir g hg hnone none []
      rw [he] at hx
      cases hx

/-- Witness for C8 on a one-file directory. -/
theorem C8_witness :
    ["V1".data] = [exV1File].map (fun g => varNameOf g.filename) ∧
    ∀ g ∈ [exV1File], g.content.isSome :=
  (C8_manifest_consistency [exV1File]).1
    ((exV1File.content.getD []).map (longRowOf (varNameOf exV1File.filename)))
    ["V1".data] (by decide)

/-- C6: a failing remote fetch (`RemoteQueryError`) or cache write
(`CacheWriteError`) for one variable does not abort the batch: the loop
still runs to completion querying every non-completed variable, the
offending identifier is reported together with its error, and the
failed variable's cache file stays absent. -/
theorem C6_fetch_isolation (ff : PyStr → Except String (List CacheRow))
    (wo : PyStr → Bool) (year : Int) (S : Finset PyStr)
    (cache0 : List CacheFile) (vs : List PyStr) (v : PyStr) (e : String)
    (hv : v ∈ vs) (hS : v ∉ S)
    (herr : ff v = .error e ∨
      (∃ rows, ff v = .ok rows ∧ wo (cacheName v year) = false))
    (habs : cacheName v year ∉ cache0.map CacheFile.filename) :
    (∃ m, (v, m) ∈ (fetch_loop ff wo year S vs ⟨cache0, [], []⟩).failures) ∧
    (ff v = .error e → (v, e) ∈ (fetch_loop ff wo year S vs ⟨cache0, [], []⟩).failures) ∧
    cacheName v year ∉
      (fetch_loop ff wo year S vs ⟨cache0, [], []⟩).cache.map CacheFile.filename ∧
    (fetch_loop ff wo year S vs ⟨cache0, [], []⟩).queried
      = vs.filter (fun w => decide (w ∉ S)) := by
  refine ⟨?_, ?_, ?_, ?_⟩
  · rcases herr with he | ⟨rows, hok, hw⟩
    · exact ⟨e, fetch_loop_err_reported ff wo year S vs v e hv hS he _⟩
    · exact ⟨"CacheWriteError",
        fetch_loop_wfail_reported ff wo year S vs v rows hv hS hok hw _⟩
  · intro he
    exact fetch_loop_err_reported ff wo year S vs v e hv hS he _
  · refine fetch_loop_cache_absent ff wo year S vs _ ?_ _ habs
    intro w hw hwS hgname
    have hveq : w = v := cacheName_inj w v year hgname
    subst hveq
    rcases herr with he | ⟨rows, hok, hwf⟩
    · exact Or.inl ⟨e, he⟩
    · refine Or.inr (fun rows2 hr2 => ?_)
      rw [← hgname]
      exact hwf
  · rw [fetch_loop_queried]
    simp

/-- Witness for C6: variable `X` fails remotely, `Y` succeeds; both are
queried, `X` is reported and uncached. -/
theorem C6_witness :
    (∃ m, ("X".data, m) ∈ (fetch_loop
        (fun w => if w = "X".data then .error "boom" else .ok [])
        (fun _ => true) 2020 ∅ ["X".data, "Y".data]
        ⟨[], [], []⟩).failures) ∧
    ((fun w => if w = "X".data then .error "boom" else
        (.ok [] : Except String (List CacheRow))) "X".data = .error "boom" →
      ("X".data, "boom") ∈ (fetch_loop
        (fun w => if w = "X".data then .error "boom" else .ok [])
        (fun _ => true) 2020 ∅ ["X".data, "Y".data] ⟨[], [], []⟩).failures) ∧
    cacheName "X".data 2020 ∉ (fetch_loop
        (fun w => if w = "X".data then .error "boom" else .ok [])
        (fun _ => true) 2020 ∅ ["X".data, "Y".data]
        ⟨[], [], []⟩).cache.map CacheFile.filename ∧
    (fetch_loop (fun w => if w = "X".data then .error "boom" else .ok [])
        (fun _ => true) 2020 ∅ ["X".data, "Y".data] ⟨[], [], []⟩).queried
      = ["X".data, "Y".data].filter (fun w => decide (w ∉ (∅ : Finset PyStr))) :=
  C6_fetch_isolation
    (fun w => if w = "X".data then .error "boom" else .ok [])
    (fun _ => true) 2020 ∅ [] ["X".data, "Y".data] "X".data "boom"
    (by decide) (by decide) (Or.inl (by decide)) (by decide)

/-- C7: resume correctness. With the completed set taken from scanning
the existing cache for the target year, re-running the fetch loop
queries exactly the eligible variables not in that set, and the cache
file of every variable in the set is left untouched in content. -/
theorem C7_resume (ff : PyStr → Except String (List CacheRow))
    (wo : PyStr → Bool) (year : Int) (varNames : List PyStr)
    (cache0 : List CacheFile) (S : Finset PyStr)
    (hS : get_completed_vars (cache0.map CacheFile.filename) year = .ok S)
    (hclean : ∀ w ∈ varNames, cleanVarId w = true) :
    (fetch_loop ff wo year S varNames ⟨cache0, [], []⟩).queried
      = varNames.filter (fun w => decide (w ∉ S)) ∧
    (∀ f ∈ cache0, ∀ u, parseCacheFilename f.filename = some (u, year) →
      u ∈ S →
      lookupFile (fetch_loop ff wo year S varNames ⟨cache0, [], []⟩).cache
          f.filename
        = lookupFile cache0 f.filename) := by
  constructor
  · rw [fetch_loop_queried]
    simp
  · intro f hf u hp huS
    apply fetch_loop_lookup_keep
    intro w hw hwS heq
    have hpw : parseCacheFilename (cacheName w year) = some (w, year) :=
      parse_cacheName w year (hclean w hw)
    rw [heq, hp] at hpw
    obtain rfl : u = w := by simpa using hpw
    exact hwS huS

/-- Witness for C7: variable `A` already cached for 2020, so only `B`
is queried and `A`'s file is untouched. -/
theorem C7_witness :
    (fetch_loop (fun _ => .ok []) (fun _ => true) 2020 {"A".data}
        ["A".data, "B".data]
        ⟨[⟨"A--2020.feather".data, some []⟩], [], []⟩).queried
      = ["A".data, "B".data].filter
          (fun w => decide (w ∉ ({"A".data} : Finset PyStr))) ∧
    lookupFile (fetch_loop (fun _ => .ok []) (fun _ => true) 2020 {"A".data}
        ["A".data, "B".data]
        ⟨[⟨"A--2020.feather".data, some []⟩], [], []⟩).cache
        "A--2020.feather".data
      = lookupFile [⟨"A--2020.feather".data, some []⟩] "A--2020.feather".data := by
  have h := C7_resume (fun _ => .ok []) (fun _ => true) 2020
    ["A".data, "B".data] [⟨"A--2020.feather".data, some []⟩] {"A".data}
    (by decide) (by decide)
  exact ⟨h.1, h.2 ⟨"A--2020.feather".data, some []⟩ (by decide) "A".data
    (by decide) (by decide)⟩

/-- C9 as stated is false on the code: the identifier `"A-"` contains
neither the `--` delimiter nor the extension separator, yet after the
Cache Writer stores it for year 2020 the Completion Tracker returns the
empty set for that year — the filename `A---2020.feather` is split at
its first `--` occurrence into `("A", "-2020")`. -/
theorem C9_counterexample :
    hasDot "A-".data = false ∧ hasDD "A-".data = false ∧
    get_completed_vars
      ((writeFeather [] (cacheName "A-".data 2020) []).map CacheFile.filename)
      2020
      = .ok (∅ : Finset PyStr) :=
  ⟨by decide, by decide, by decide⟩

/-- C9 (amended): for a variable identifier containing neither `--` nor
the extension separator and, additionally, not ending in `-`, the round
trip holds: after the Cache Writer stores the variable for a year, any
successful Completion Tracker scan of that directory for the same year
contains the identifier. -/
theorem C9_amended_roundtrip (v : PyStr) (y : Int) (cache : List CacheFile)
    (rows : List CacheRow) (S : Finset PyStr) (hclean : cleanVarId v = true)
    (hS : get_completed_vars
        ((writeFeather cache (cacheName v y) rows).map CacheFile.filename) y
      = .ok S) :
    v ∈ S :=
  mem_of_getCompletedAux_ok y (cacheName v y) v
    ((writeFeather cache (cacheName v y) rows).map CacheFile.filename)
    (mem_filenames_writeFeather cache (cacheName v y) rows)
    (parse_cacheName v y hclean) ∅ S hS

/-- Witness for C9 (amended) with the clean identifier `B01`. -/
theorem C9_amended_witness :
    cleanVarId "B01".data = true ∧ "B01".data ∈ ({"B01".data} : Finset PyStr) :=
  ⟨by decide,
   C9_amended_roundtrip "B01".data 2020 [] [] {"B01".data} (by decide) (by decide)⟩
